import Mathlib

/-!
Verification of the HTML cleaning / content-extraction core of the
rs-news-clipper repository (src/src/models/web_article.rs and the site
adapters in src/src/models/sites/) against its natural-language
specification.

The HTML parser (html5ever via the scraper crate) is not reimplemented:
a parsed document is modelled abstractly as a `Doc`, a map from CSS
selector strings to the list of matching elements in document order
(`none` models a selector string that `Selector::parse` rejects).  Each
`Elem` carries exactly the data the Rust code reads off a matched
element: its serialized HTML (`elem.html()`), its visible text
(`elem.text().collect()`), the texts of its anchor descendants, its
paragraph-descendant count and its class and id attributes.  Concrete
`Doc` values used in examples are hand-derived from the HTML5 parsing
and serialization rules and documented where they appear.  Rust `f64`
scores are modelled as exact rationals, and string lengths count
characters rather than UTF-8 bytes; all concrete inputs are ASCII, where
the two coincide.
-/

/-- Whitespace test matching the regex class \s of the Rust regex crate
(Unicode White_Space property). -/
def rustWs (c : Char) : Bool :=
  c = ' ' || c = '\t' || c = '\n' || c = '\x0b' || c = '\x0c' || c = '\r' ||
  c.val = 0x85 || c.val = 0xa0 || c.val = 0x1680 ||
  (0x2000 ≤ c.val && c.val ≤ 0x200a) ||
  c.val = 0x2028 || c.val = 0x2029 || c.val = 0x202f || c.val = 0x205f || c.val = 0x3000

/-- Boolean list-prefix test: does the second list start with the first. -/
def listPref : List Char → List Char → Bool
  | [], _ => true
  | _ :: _, [] => false
  | a :: as, b :: bs => a = b && listPref as bs

/-- Does `hay` contain `needle` as a contiguous sublist. -/
def hasSub (hay needle : List Char) : Bool :=
  if listPref needle hay then true
  else
    match hay with
    | [] => false
    | _ :: t => hasSub t needle

/-- Does the string `hay` contain `pat` as a substring. -/
def hasSubstr (hay pat : String) : Bool :=
  hasSub hay.data pat.data

/-- Fuel-indexed core of `removeAll`.  Models Rust `str::replace(needle, "")`:
scan left to right, erase every non-overlapping occurrence of `needle`,
never rescanning the produced output.  The fuel is only a structural
recursion device; `removeAll` supplies fuel equal to the length of the
string, which lemma `removeAllAux_fuel_irrel`-style arguments below show
is always enough because each step consumes at least one character. -/
def removeAllAux : Nat → List Char → List Char → List Char
  | 0, hay, _ => hay
  | _ + 1, [], _ => []
  | n + 1, c :: t, needle =>
    if needle ≠ [] && listPref needle (c :: t) then
      removeAllAux n (List.drop needle.length (c :: t)) needle
    else
      c :: removeAllAux n t needle

/-- Model of Rust `cleaned.replace(fragment, "")`: erase all occurrences. -/
def removeAll (s f : String) : String :=
  ⟨removeAllAux s.data.length s.data f.data⟩

/-- One maximal whitespace run, as matched by the regex \n\s*\n\s*\n of
clean_html_with_selectors.  The leftmost greedy match of that pattern
inside a maximal whitespace run containing at least three newlines spans
from the first newline of the run to the last, and replace_all rewrites
that span to two newlines, keeping the whitespace of the run before the
first newline and after the last.  A run with fewer than three newlines
contains no match and is kept unchanged. -/
def flushRun (run : List Char) : List Char :=
  if 3 ≤ run.count '\n' then
    run.takeWhile (fun c => c ≠ '\n') ++
      '\n' :: '\n' :: (run.reverse.takeWhile (fun c => c ≠ '\n')).reverse
  else run

/-- Scan of the whole string for the regex rewrite: accumulate the current
whitespace run (reversed) and flush it at each non-whitespace character. -/
def collapseAux : List Char → List Char → List Char
  | run, [] => flushRun run.reverse
  | run, c :: cs =>
    if rustWs c then collapseAux (c :: run) cs
    else flushRun run.reverse ++ c :: collapseAux [] cs

/-- Model of `Regex::new(r"\n\s*\n\s*\n").replace_all(s, "\n\n")`. -/
def collapseNl (s : String) : String :=
  ⟨collapseAux [] s.data⟩

/-- Stable insertion of a string into a list sorted by length descending:
the newcomer goes after every element of length greater than or equal to
its own, which is exactly the order produced by the stable Rust
`sort_by(|a, b| b.len().cmp(&a.len()))`. -/
def insLenDesc (f : String) : List String → List String
  | [] => [f]
  | g :: gs => if g.length < f.length then f :: g :: gs else g :: insLenDesc f gs

/-- Stable sort by string length, descending. -/
def sortLenDesc (l : List String) : List String :=
  l.foldl (fun acc f => insLenDesc f acc) []

/-- Keep the first occurrence of each string, dropping later duplicates;
`seen` lists the strings already emitted. -/
def dedupAux (seen : List String) : List String → List String
  | [] => []
  | x :: xs => if x ∈ seen then dedupAux seen xs else x :: dedupAux (x :: seen) xs

/-- First-occurrence deduplication of a list of strings. -/
def dedupFirst (l : List String) : List String :=
  dedupAux [] l

/-- Character-wise lowercasing, modelling Rust str::to_lowercase on the
ASCII inputs of this development. -/
def lowerStr (s : String) : String :=
  ⟨s.data.map Char.toLower⟩

/-- One element of a parsed HTML document, carrying exactly the data the
Rust code reads from a scraper ElementRef: `ehtml` is the serialized
HTML `elem.html()`, `etext` the concatenated visible text
`elem.text().collect()`, `linkTexts` the visible texts of the anchor
descendants returned by `elem.select("a")`, `pCount` the number of
paragraph descendants returned by `elem.select("p")`, and `classAttr`
and `idAttr` the class and id attributes. -/
structure Elem where
  ehtml : String
  etext : String
  linkTexts : List String
  pCount : Nat
  classAttr : Option String
  idAttr : Option String
deriving DecidableEq

/-- Abstract parsed document: `sel s` is the list of elements matching
selector `s` in document order, or `none` when `Selector::parse(s)`
fails.  This stands for `scraper::Html::parse_document` composed with
`doc.select`. -/
structure Doc where
  sel : String → Option (List Elem)

/-- The constant EXCLUDE_SELECTORS of web_article.rs, in source order. -/
def EXCLUDE_SELECTORS : List String :=
  [ "nav", "header", "footer",
    "aside", "[role='navigation']", "[role='complementary']",
    "[role='banner']", "[role='contentinfo']",
    ".ad", ".ads", ".advertisement", ".advert",
    "[class*='ad-']", "[class*='ads-']", "[id*='ad-']", "[id*='ads-']",
    ".social", ".social-share", ".share-buttons", ".sharing",
    ".comments", "#comments", ".comment-section",
    ".related", ".related-posts", ".recommended", ".suggestions",
    "script", "style", "noscript", "iframe",
    "form",
    "[hidden]", "[aria-hidden='true']", ".hidden", ".visually-hidden" ]

/-- The constant CONTENT_SELECTORS of web_article.rs, in source order. -/
def CONTENT_SELECTORS : List String :=
  [ "article", "main", "[role='main']",
    ".article", ".content", ".post", ".entry",
    ".post-content", ".article-content", ".entry-content",
    "#content", "#main", "#article" ]

/-- The constant NON_CONTENT_SELECTORS of web_article.rs, in source order. -/
def NON_CONTENT_SELECTORS : List String :=
  [ "nav", "header", "footer", "aside",
    ".sidebar", ".menu", ".navigation",
    ".comment", ".comments", ".footer", ".header" ]

/-- One selector-loop of clean_html_with_selectors: for each selector
that parses, push the serialized HTML of every matching element unless
an identical fragment was already collected. -/
def collectFrom (d : Doc) (sels : List String) (acc : List String) : List String :=
  sels.foldl (fun acc s =>
    match d.sel s with
    | none => acc
    | some es => es.foldl (fun acc e => if e.ehtml ∈ acc then acc else acc ++ [e.ehtml]) acc) acc

/-- The full candidate-fragment list of clean_html_with_selectors: the
base loop over EXCLUDE_SELECTORS followed by the loop over the
caller-supplied additional selectors, sharing one deduplicated vector. -/
def collectedFragments (d : Doc) (additional : List String) : List String :=
  collectFrom d additional (collectFrom d EXCLUDE_SELECTORS [])

/-- Model of clean_html_with_selectors: collect fragments, sort by
length descending, erase every occurrence of each fragment from the
original document string, then apply the blank-line regex rewrite. -/
def clean_html_with_selectors (d : Doc) (html : String) (additional : List String) : String :=
  collapseNl ((sortLenDesc (collectedFragments d additional)).foldl (fun s f => removeAll s f) html)

/-- Model of clean_html: clean with no additional selectors. -/
def clean_html (d : Doc) (html : String) : String :=
  clean_html_with_selectors d html []

/-- Model of calculate_text_density: text length over HTML length, zero
for empty HTML. -/
def calculate_text_density (html text : String) : ℚ :=
  if html.length = 0 then 0 else (text.length : ℚ) / (html.length : ℚ)

/-- Total length of the anchor-descendant texts of an element. -/
def linkTextLen (e : Elem) : Nat :=
  (e.linkTexts.map String.length).sum

/-- Model of calculate_link_density: anchor text length over total text
length, zero when the element has no visible text. -/
def calculate_link_density (e : Elem) : ℚ :=
  if e.etext.length = 0 then 0 else (linkTextLen e : ℚ) / (e.etext.length : ℚ)

/-- Model of calculate_content_score, accumulating the score in the same
order as the source. -/
def calculate_content_score (e : Elem) : ℚ :=
  let score : ℚ := 0
  let score := score + calculate_text_density e.ehtml e.etext * 100
  let score := score - calculate_link_density e * 50
  let score := score + min ((e.pCount : ℚ)) 10 * 5
  let score := if 500 < e.etext.length then score + 20 else score
  let score := if 1000 < e.etext.length then score + 10 else score
  let score :=
    match e.classAttr with
    | some c =>
      let cl := lowerStr c
      let score :=
        if hasSubstr cl "article" || hasSubstr cl "content" || hasSubstr cl "post" then
          score + 25
        else score
      if hasSubstr cl "sidebar" || hasSubstr cl "comment" || hasSubstr cl "nav" then
        score - 25
      else score
    | none => score
  match e.idAttr with
  | some i =>
    let il := lowerStr i
    if hasSubstr il "article" || hasSubstr il "content" || hasSubstr il "main" then
      score + 25
    else score
  | none => score

/-- The selector-probing loop of extract_main_content: for each content
selector that parses and matches, look only at the first match and
return its serialized HTML when its text is longer than 200. -/
def tryContentSelectors (d : Doc) : List String → Option String
  | [] => none
  | s :: rest =>
    match d.sel s with
    | some (e :: _) =>
      if 200 < e.etext.length then some e.ehtml else tryContentSelectors d rest
    | _ => tryContentSelectors d rest

/-- The candidate list of the heuristic phase.  The selector string
constant is valid CSS, so the source unwrap never fails; faithful
documents answer it with `some`. -/
def heuristicCandidates (d : Doc) : List Elem :=
  (d.sel "div, section, article, main").getD []

/-- The non-content test of extract_main_content: the serialized HTML of
the candidate is identical to that of some element matching one of the
NON_CONTENT_SELECTORS. -/
def isNonContent (d : Doc) (fragment : String) : Bool :=
  NON_CONTENT_SELECTORS.any (fun s =>
    match d.sel s with
    | some es => es.any (fun e2 => e2.ehtml == fragment)
    | none => false)

/-- The scoring loop of extract_main_content: accumulator starts at
score 0 with no winner, skips short and non-content candidates, and
replaces the winner only on a strictly larger score. -/
def heuristicPhase (d : Doc) : Option String :=
  ((heuristicCandidates d).foldl (fun acc e =>
    if e.etext.length < 100 then acc
    else if isNonContent d e.ehtml then acc
    else if acc.1 < calculate_content_score e then (calculate_content_score e, some e.ehtml)
    else acc)
    ((0 : ℚ), (none : Option String))).2

/-- Model of extract_main_content: the content-selector probe, then the
scoring heuristic. -/
def extract_main_content (d : Doc) : Option String :=
  match tryContentSelectors d CONTENT_SELECTORS with
  | some h => some h
  | none => heuristicPhase d

/-- Model of extract_content_with_fallback: if the primary selector
parses and matches, return the first match unconditionally, otherwise
fall back to extract_main_content. -/
def extract_content_with_fallback (d : Doc) (primary : String) : Option String :=
  match d.sel primary with
  | some (e :: _) => some e.ehtml
  | _ => extract_main_content d

/-- The characters of the literal `<![CDATA[` opening. -/
def cdataOpen : List Char :=
  ['<', '!', '[', 'C', 'D', 'A', 'T', 'A', '[']

/-- The characters of the literal `]]>` closing. -/
def cdataClose : List Char :=
  [']', ']', '>']

/-- Lazy capture of the regex `<!\[CDATA\[(?<text>.+?)\]\]>` once the
opening literal has been consumed: extend the captured text one
non-newline character at a time and stop at the first `]]>` reached
after at least one character.  `accRev` holds the capture so far,
reversed. -/
def cdataInner (accRev : List Char) (rest : List Char) : Option (List Char) :=
  if accRev ≠ [] && listPref cdataClose rest then some accRev.reverse
  else
    match rest with
    | [] => none
    | c :: cs => if c = '\n' then none else cdataInner (c :: accRev) cs

/-- Leftmost match of the CDATA regex: scan for the first position where
the opening literal occurs and the lazy body finds a closing `]]>`
before any newline, and return the captured text. -/
def cdataScan : List Char → Option (List Char)
  | [] => none
  | c :: cs =>
    if listPref cdataOpen (c :: cs) then
      match cdataInner [] (List.drop 9 (c :: cs)) with
      | some inner => some inner
      | none => cdataScan cs
    else cdataScan cs

/-- The CDATA unwrapping performed by WebArticle::new on title and
description: the captured text of the first regex match, or the raw
value when the regex does not match. -/
def cdataUnwrap (s : String) : String :=
  match cdataScan s.data with
  | some inner => ⟨inner⟩
  | none => s

/-- Model of the WebArticle record; `textS` and `htmlS` are the content
fields `text` and `html`, and the timestamp is abstracted to an integer
since no claim computes with dates. -/
structure WebArticleM where
  siteName : String
  siteUrl : String
  title : String
  articleUrl : String
  description : String
  timestamp : Int
  textS : String
  htmlS : String
deriving DecidableEq

/-- Model of WebArticle::new.  `md` abstracts html2md::rewrite_html
applied to the description after CDATA unwrapping. -/
def WebArticle_new (md : String → String) (siteName siteUrl title articleUrl description : String)
    (timestamp : Int) : WebArticleM :=
  { siteName, siteUrl,
    title := cdataUnwrap title,
    articleUrl,
    description := md (cdataUnwrap description),
    timestamp,
    textS := "",
    htmlS := "" }

/-- Modelled from the spec: the one later assignment of the content
fields that the Fetch Orchestrator (not under src/) performs after a
content extraction; a successful extraction writes both fields once, a
failed one leaves the article untouched. -/
def applyExtractionResult (a : WebArticleM) (r : Option (String × String)) : WebArticleM :=
  match r with
  | some (h, t) => { a with htmlS := h, textS := t }
  | none => a

/-- One feed item as produced by the feed_parser crate. -/
structure FeedItemM where
  title : String
  link : String
  description : Option String
  publishDate : Option String
deriving DecidableEq

/-- Model of the per-item mapping of ZennTopic::get_articles.  The source
calls `.unwrap()` on `feed.publish_date` and on
`DateTime::parse_from_rfc2822`, so a missing or unparsable date panics;
the panic is modelled as `none` for the whole call.  `parseDate` abstracts
RFC 2822 parsing. -/
def zennGetArticles (parseDate : String → Option Int) (md : String → String)
    (siteName siteUrl : String) (feeds : List FeedItemM) : Option (List WebArticleM) :=
  feeds.mapM (fun f =>
    (f.publishDate.bind parseDate).map (fun ts =>
      WebArticle_new md siteName siteUrl f.title f.link (f.description.getD "") ts))

/-- Model of the per-item mapping of TechCrunch::get_articles: a missing
date yields `ScrapeError "Missing publish_date"`, an unparsable one the
chrono parse error, and `collect` over results aborts the whole feed at
the first failing item. -/
def techCrunchGetArticles (parseDate : String → Option Int) (md : String → String)
    (siteName siteUrl : String) (feeds : List FeedItemM) : Except String (List WebArticleM) :=
  feeds.mapM (fun f => do
    let pd ← match f.publishDate with
      | some pd => Except.ok pd
      | none => Except.error "Missing publish_date"
    let ts ← match parseDate pd with
      | some ts => Except.ok ts
      | none => Except.error "DateTime Parse Error"
    Except.ok (WebArticle_new md siteName siteUrl f.title f.link (f.description.getD "") ts))

/-- Spec reading of step 2 of the Clean algorithm: the fragments of all
elements matching any rule of (base taxonomy then extra exclusions), in
document traversal order. -/
def selFragments (d : Doc) (sels : List String) : List String :=
  (sels.map (fun s => ((d.sel s).getD []).map (fun e => e.ehtml))).flatten

/-- Spec reading of the deduplicated candidate-removal set, ordered by
first collection. -/
def specCandidates (d : Doc) (extra : List String) : List String :=
  dedupFirst (selFragments d (EXCLUDE_SELECTORS ++ extra))

/-- Spec reading of steps 3 and 4 of the Clean algorithm: sort the
candidates by length descending and textually erase all occurrences of
each from the working document string. -/
def specEraseAll (html : String) (frags : List String) : String :=
  (sortLenDesc frags).foldl (fun s f => removeAll s f) html

/-- Lines of a character list, splitting at every newline. -/
def splitOnNl : List Char → List (List Char)
  | [] => [[]]
  | c :: cs =>
    if c = '\n' then [] :: splitOnNl cs
    else
      match splitOnNl cs with
      | [] => [[c]]
      | l :: ls => (c :: l) :: ls

/-- A blank line: empty or whitespace-only. -/
def isBlankLine (l : List Char) : Bool :=
  l.all rustWs

/-- Collapse a run of blank lines per the claim wording: three or more
consecutive blank lines become a single blank line, shorter runs are
kept. -/
def flushBlankLines (run : List (List Char)) : List (List Char) :=
  if 3 ≤ run.length then [[]] else run

/-- Scan of the line list collapsing blank-line runs. -/
def squashBlankAux : List (List Char) → List (List Char) → List (List Char)
  | runRev, [] => flushBlankLines runRev.reverse
  | runRev, l :: ls =>
    if isBlankLine l then squashBlankAux (l :: runRev) ls
    else flushBlankLines runRev.reverse ++ l :: squashBlankAux [] ls

/-- Rejoin lines with newlines. -/
def joinNl : List (List Char) → List Char
  | [] => []
  | [l] => l
  | l :: ls => l ++ '\n' :: joinNl ls

/-- Literal reading of claim step 5: collapse runs of 3 or more blank
lines down to a single blank line. -/
def specCollapseBlankLines (s : String) : String :=
  ⟨joinNl (squashBlankAux [] (splitOnNl s.data))⟩

/-- The Clean algorithm exactly as the claim words it, with the literal
blank-line reading of step 5. -/
def cleanSpecLiteral (d : Doc) (html : String) (extra : List String) : String :=
  specCollapseBlankLines (specEraseAll html (specCandidates d extra))

/-- The Clean algorithm as the claim words it, with step 5 amended to
the regex semantics of the source: every maximal whitespace run holding
three or more newlines is reduced to two newlines. -/
def cleanSpecAmended (d : Doc) (html : String) (extra : List String) : String :=
  collapseNl (specEraseAll html (specCandidates d extra))

/-- Spec reading of text density: visible-text length over
serialized-HTML length. -/
def specTextDensity (e : Elem) : ℚ :=
  (e.etext.length : ℚ) / (e.ehtml.length : ℚ)

/-- Spec reading of link density: anchor-text length over visible-text
length, zero without visible text. -/
def specLinkDensity (e : Elem) : ℚ :=
  if e.etext.length = 0 then 0 else (linkTextLen e : ℚ) / (e.etext.length : ℚ)

/-- Spec reading of the length bonus: 20 above 500 characters plus
another 10 above 1000. -/
def specLengthBonus (e : Elem) : ℚ :=
  (if 500 < e.etext.length then 20 else 0) + (if 1000 < e.etext.length then 10 else 0)

/-- Spec reading of the class and id bonus, case-insensitive throughout:
plus 25 for article/content/post in the class, minus 25 for
sidebar/comment/nav in the class, plus 25 independently for
article/content/main in the id. -/
def specClassIdBonus (e : Elem) : ℚ :=
  (match e.classAttr with
   | some c =>
     if hasSubstr (lowerStr c) "article" || hasSubstr (lowerStr c) "content" || hasSubstr (lowerStr c) "post"
     then 25 else 0
   | none => 0) -
  (match e.classAttr with
   | some c =>
     if hasSubstr (lowerStr c) "sidebar" || hasSubstr (lowerStr c) "comment" || hasSubstr (lowerStr c) "nav"
     then 25 else 0
   | none => 0) +
  (match e.idAttr with
   | some i =>
     if hasSubstr (lowerStr i) "article" || hasSubstr (lowerStr i) "content" || hasSubstr (lowerStr i) "main"
     then 25 else 0
   | none => 0)

/-- The scoring formula exactly as the spec states it. -/
def specScore (e : Elem) : ℚ :=
  specTextDensity e * 100 - specLinkDensity e * 50 +
    min ((e.pCount : ℚ)) 10 * 5 + specLengthBonus e + specClassIdBonus e

/-- The claim reading of ExtractWithFallback: the selector-first phase
takes the first primary-selector match whose text exceeds the
200-character floor, and only when no match is long enough does the
heuristic phase run. -/
def specExtractWithFallbackLiteral (d : Doc) (primary : String) : Option String :=
  match d.sel primary with
  | some es =>
    match es.find? (fun e => decide (200 < e.etext.length)) with
    | some e => some e.ehtml
    | none => heuristicPhase d
  | none => heuristicPhase d

/-- The claim reading of the heuristic winner: among the tag candidates
with at least 100 characters of text (no other filter), the first
element attaining the highest score, provided that score is positive. -/
def claimHeuristicLiteral (d : Doc) : Option String :=
  let fs := (heuristicCandidates d).filter (fun e => decide (100 ≤ e.etext.length))
  let m := fs.foldl (fun b e => max b (calculate_content_score e)) 0
  if 0 < m then
    (fs.find? (fun e => decide (calculate_content_score e = m))).map (fun e => e.ehtml)
  else none

/-- The candidates surviving both discards of the heuristic phase: at
least 100 characters of text and not matching a non-content rule. -/
def heuristicEligible (d : Doc) : List Elem :=
  (heuristicCandidates d).filter
    (fun e => decide (100 ≤ e.etext.length) && ! isNonContent d e.ehtml)

/-- The highest score among a list of elements, at least the starting
accumulator 0 of the source loop. -/
def bestScore (fs : List Elem) : ℚ :=
  fs.foldl (fun b e => max b (calculate_content_score e)) 0

/-- A document in which no exclusion selector matches anything, such as
the parse of a bare text body: html5ever wraps plain text in html, head
and body, none of which is matched by any entry of EXCLUDE_SELECTORS. -/
def trivDoc : Doc :=
  ⟨fun _ => some []⟩

/-- A document whose only invalid selector is the unterminated
`[unclosed`, with no matches otherwise. -/
def docWithBadSel : Doc :=
  ⟨fun s => if s = "[unclosed" then none else some []⟩

/-- The serialized aside fragment of the idempotence counterexample. -/
def asideFrag : String := "<aside>q</aside>"

/-- The nav fragment revealed by erasing the aside fragments. -/
def navFrag : String := "<nav>z</nav>"

/-- Input for the idempotence counterexample.  The HTML5 tokenizer reads
`<na<aside` as one start tag whose name is the literal text na<aside
(in tag-name state every character other than whitespace, slash and the
closing angle bracket is appended to the name), so the only aside
element of the parse is the first one; the later `</aside>` and
`</nav>` end tags match no open element and are dropped, and `v>z` is
plain text.  Erasing both textual occurrences of `<aside>q</aside>`
splices `<na` and `v>z</nav>` into a live `<nav>z</nav>` element. -/
def s2input : String :=
  "<body><aside>q</aside><p>AAA</p><na<aside>q</aside>v>z</nav><p>BBB</p></body>"

/-- Parse of s2input: selector aside matches the single real aside
element, whose serialization is exact; no other exclusion selector
matches (the junk element is named na<aside, not aside or nav). -/
def s2doc : Doc :=
  ⟨fun s =>
    if s = "aside" then
      some [{ ehtml := asideFrag, etext := "q", linkTexts := [], pCount := 0,
              classAttr := none, idAttr := none }]
    else some []⟩

/-- Parse of the cleaned output of s2input, which is
`<body><p>AAA</p><nav>z</nav><p>BBB</p></body>`: the revealed nav is now
a real element with an exactly-matching serialization. -/
def s2docAfter : Doc :=
  ⟨fun s =>
    if s = "nav" then
      some [{ ehtml := navFrag, etext := "z", linkTexts := [], pCount := 0,
              classAttr := none, idAttr := none }]
    else some []⟩

/-- The single short match of the fallback-floor counterexample: a div
with two characters of visible text. -/
def shortElem : Elem :=
  { ehtml := "<div id=\"custom-content\">hi</div>", etext := "hi", linkTexts := [],
    pCount := 0, classAttr := none, idAttr := some "custom-content" }

/-- Parse of `<html><body><div id="custom-content">hi</div></body></html>`:
the id selector and the candidate-tag selector both return the div, and
every other selector matches nothing. -/
def shortDoc : Doc :=
  ⟨fun s =>
    if s = "#custom-content" then some [shortElem]
    else if s = "div, section, article, main" then some [shortElem]
    else some []⟩

/-- A run of `n` letters a. -/
def aChars (n : Nat) : String :=
  ⟨List.replicate n 'a'⟩

/-- One 30-character paragraph of the sidebar div. -/
def sidebarPar : String :=
  "<p>" ++ aChars 30 ++ "</p>"

/-- Concatenate `n` copies of a string. -/
def repStr (s : String) (n : Nat) : String :=
  ⟨(List.replicate n s.data).flatten⟩

/-- Serialized HTML of the sidebar div: class sidebar, ten paragraphs of
thirty characters each. -/
def sidebarHtml : String :=
  "<div class=\"sidebar\">" ++ repStr sidebarPar 10 ++ "</div>"

/-- The sidebar div as an element: 300 characters of text, ten paragraph
descendants, no anchors. -/
def sidebarElem : Elem :=
  { ehtml := sidebarHtml, etext := aChars 300, linkTexts := [], pCount := 10,
    classAttr := some "sidebar", idAttr := none }

/-- A plain div with 150 characters of text and no descendants. -/
def plainElem : Elem :=
  { ehtml := "<div>" ++ aChars 150 ++ "</div>", etext := aChars 150, linkTexts := [],
    pCount := 0, classAttr := none, idAttr := none }

/-- Parse of `<body><div class="sidebar">...ten paragraphs...</div>
<div>...150 characters...</div></body>`: the candidate selector returns
both divs in document order, the sidebar class rule returns the first
div, and nothing else matches. -/
def sidebarDoc : Doc :=
  ⟨fun s =>
    if s = "div, section, article, main" then some [sidebarElem, plainElem]
    else if s = ".sidebar" then some [sidebarElem]
    else some []⟩

/-- Input of the under-removal counterexample: an uppercase nav element.
The HTML5 tokenizer lowercases tag names, so the parse holds a real nav
element, but its serialization `<nav>menu</nav>` is written in lowercase
and never occurs in the source text. -/
def upperNavInput : String :=
  "<html><body><NAV>menu</NAV><p>hello</p></body></html>"

/-- Parse of upperNavInput: the nav selector matches the (lowercased)
nav element, whose serialization differs from the source spelling. -/
def upperNavDoc : Doc :=
  ⟨fun s =>
    if s = "nav" then
      some [{ ehtml := "<nav>menu</nav>", etext := "menu", linkTexts := [], pCount := 0,
              classAttr := none, idAttr := none }]
    else some []⟩

/-- The boilerplate-removal scenario of the spec, with every excluded
element written exactly as it serializes. -/
def scenarioInput : String :=
  "<html><body><header>H</header><nav>N</nav><script>var x=1;</script><main><article><h1>T</h1><p>Body text long enough.</p></article></main><aside>A</aside><footer>F</footer></body></html>"

/-- Parse of scenarioInput: each boilerplate tag matches its element and
the serializations equal the source spelling. -/
def scenarioDoc : Doc :=
  ⟨fun s =>
    if s = "header" then
      some [{ ehtml := "<header>H</header>", etext := "H", linkTexts := [], pCount := 0,
              classAttr := none, idAttr := none }]
    else if s = "nav" then
      some [{ ehtml := "<nav>N</nav>", etext := "N", linkTexts := [], pCount := 0,
              classAttr := none, idAttr := none }]
    else if s = "script" then
      some [{ ehtml := "<script>var x=1;</script>", etext := "var x=1;", linkTexts := [],
              pCount := 0, classAttr := none, idAttr := none }]
    else if s = "aside" then
      some [{ ehtml := "<aside>A</aside>", etext := "A", linkTexts := [], pCount := 0,
              classAttr := none, idAttr := none }]
    else if s = "footer" then
      some [{ ehtml := "<footer>F</footer>", etext := "F", linkTexts := [], pCount := 0,
              classAttr := none, idAttr := none }]
    else some []⟩

/-- A feed item lacking its publish date. -/
def noDateItem : FeedItemM :=
  { title := "t", link := "l", description := none, publishDate := none }

/-- A feed item with a well-formed RFC 2822 publish date. -/
def goodItem : FeedItemM :=
  { title := "t2", link := "l2", description := some "d",
    publishDate := some "Mon, 01 Jan 2024 00:00:00 +0000" }

/-- A date parser recognizing exactly the date of goodItem. -/
def fixedParseDate : String → Option Int :=
  fun s => if s = "Mon, 01 Jan 2024 00:00:00 +0000" then some 1704067200 else none

set_option maxRecDepth 100000

lemma score_sidebarElem : calculate_content_score sidebarElem = 39925 / 397 := by
  have h1 : sidebarElem.ehtml.length = 397 := by decide
  have h2 : sidebarElem.etext.length = 300 := by decide
  have h3 : linkTextLen sidebarElem = 0 := by decide
  have h4 : sidebarElem.classAttr = some "sidebar" := by decide
  have h5 : sidebarElem.idAttr = none := by decide
  have h6 : sidebarElem.pCount = 10 := by decide
  have t1 : lowerStr "sidebar" = "sidebar" := by decide
  have c1 : hasSubstr "sidebar" "article" = false := by decide
  have c2 : hasSubstr "sidebar" "content" = false := by decide
  have c3 : hasSubstr "sidebar" "post" = false := by decide
  have c4 : hasSubstr "sidebar" "sidebar" = true := by decide
  simp only [calculate_content_score, calculate_text_density, calculate_link_density,
    h1, h2, h3, h4, h5, h6, t1, c1, c2, c3, c4]
  norm_num

lemma score_plainElem : calculate_content_score plainElem = 15000 / 161 := by
  have h1 : plainElem.ehtml.length = 161 := by decide
  have h2 : plainElem.etext.length = 150 := by decide
  have h3 : linkTextLen plainElem = 0 := by decide
  have h4 : plainElem.classAttr = none := by decide
  have h5 : plainElem.idAttr = none := by decide
  have h6 : plainElem.pCount = 0 := by decide
  simp only [calculate_content_score, calculate_text_density, calculate_link_density,
    h1, h2, h3, h4, h5, h6]
  norm_num

lemma heuristicPhase_sidebarDoc : heuristicPhase sidebarDoc = some plainElem.ehtml := by
  have hlen1 : ¬ (sidebarElem.etext.length < 100) := by decide
  have hlen2 : ¬ (plainElem.etext.length < 100) := by decide
  have hnc1 : isNonContent sidebarDoc sidebarElem.ehtml = true := by decide
  have hnc2 : isNonContent sidebarDoc plainElem.ehtml = false := by decide
  have hpos : (0:ℚ) < calculate_content_score plainElem := by
    rw [score_plainElem]; norm_num
  have hsel : sidebarDoc.sel "div, section, article, main" = some [sidebarElem, plainElem] := rfl
  simp only [heuristicPhase, heuristicCandidates, hsel, Option.getD, List.foldl,
    hlen1, hnc1, hnc2, hlen2, if_neg, if_pos, Bool.false_eq_true, if_false, reduceIte]
  rw [if_pos hpos]

lemma claimLiteral_sidebarDoc : claimHeuristicLiteral sidebarDoc = some sidebarElem.ehtml := by
  have hsel : sidebarDoc.sel "div, section, article, main" = some [sidebarElem, plainElem] := rfl
  have hf1 : decide (100 ≤ sidebarElem.etext.length) = true := by decide
  have hf2 : decide (100 ≤ plainElem.etext.length) = true := by decide
  have hm : (0:ℚ) ⊔ calculate_content_score sidebarElem ⊔ calculate_content_score plainElem
      = 39925 / 397 := by
    rw [score_sidebarElem, score_plainElem,
      max_eq_right (by norm_num : (0:ℚ) ≤ 39925 / 397),
      max_eq_left (by norm_num : (15000:ℚ) / 161 ≤ 39925 / 397)]
  have hd1 : decide (calculate_content_score sidebarElem =
      (0:ℚ) ⊔ calculate_content_score sidebarElem ⊔ calculate_content_score plainElem) = true := by
    rw [decide_eq_true_eq, hm, score_sidebarElem]
  have hif : (0:ℚ) < 0 ⊔ calculate_content_score sidebarElem ⊔ calculate_content_score plainElem := by
    rw [hm]; norm_num
  simp only [claimHeuristicLiteral, heuristicCandidates, hsel, Option.getD, List.filter,
    hf1, hf2, List.foldl, List.find?, hd1]
  rw [if_pos hif]
  simp

lemma collectFrom_append (d : Doc) (s1 s2 : List String) (acc : List String) :
    collectFrom d (s1 ++ s2) acc = collectFrom d s2 (collectFrom d s1 acc) := by
  simp [collectFrom, List.foldl_append]

lemma collectFrom_eq_foldl (d : Doc) (sels : List String) (acc : List String) :
    collectFrom d sels acc =
      (selFragments d sels).foldl (fun a x => if x ∈ a then a else a ++ [x]) acc := by
  induction sels generalizing acc with
  | nil => rfl
  | cons s rest ih =>
    have hstep : (match d.sel s with
        | none => acc
        | some es => es.foldl (fun acc e => if e.ehtml ∈ acc then acc else acc ++ [e.ehtml]) acc) =
        (((d.sel s).getD []).map (fun e => e.ehtml)).foldl
          (fun a x => if x ∈ a then a else a ++ [x]) acc := by
      cases d.sel s with
      | none => rfl
      | some es => simp [List.foldl_map]
    simp only [collectFrom] at ih ⊢
    simp only [List.foldl_cons]
    rw [ih, hstep]
    simp [selFragments, List.foldl_append]

lemma dedupAux_congr (s1 s2 : List String) (h : ∀ y, y ∈ s1 ↔ y ∈ s2) (xs : List String) :
    dedupAux s1 xs = dedupAux s2 xs := by
  induction xs generalizing s1 s2 with
  | nil => rfl
  | cons x xs ih =>
    simp only [dedupAux]
    by_cases hx : x ∈ s1
    · rw [if_pos hx, if_pos ((h x).mp hx), ih s1 s2 h]
    · rw [if_neg hx, if_neg (fun hh => hx ((h x).mpr hh))]
      have : ∀ y, y ∈ x :: s1 ↔ y ∈ x :: s2 := by
        intro y
        simp only [List.mem_cons]
        exact or_congr Iff.rfl (h y)
      rw [ih (x :: s1) (x :: s2) this]

lemma foldl_insert_eq_dedup (L acc : List String) :
    L.foldl (fun a x => if x ∈ a then a else a ++ [x]) acc = acc ++ dedupAux acc L := by
  induction L generalizing acc with
  | nil => simp [dedupAux]
  | cons x xs ih =>
    simp only [List.foldl_cons, dedupAux]
    by_cases hx : x ∈ acc
    · rw [if_pos hx, if_pos hx, ih]
    · rw [if_neg hx, if_neg hx, ih]
      have : dedupAux (acc ++ [x]) xs = dedupAux (x :: acc) xs := by
        apply dedupAux_congr
        intro y
        simp [List.mem_append, List.mem_cons, or_comm]
      rw [this, List.append_assoc]
      rfl

lemma collectedFragments_eq_spec (d : Doc) (extra : List String) :
    collectedFragments d extra = specCandidates d extra := by
  have h1 : collectedFragments d extra = collectFrom d (EXCLUDE_SELECTORS ++ extra) [] := by
    rw [collectFrom_append]
    rfl
  rw [h1, collectFrom_eq_foldl, foldl_insert_eq_dedup]
  rfl

lemma hasSub_cons_false {c : Char} {t needle : List Char} (h : hasSub (c :: t) needle = false) :
    listPref needle (c :: t) = false ∧ hasSub t needle = false := by
  rw [hasSub] at h
  by_cases hp : listPref needle (c :: t)
  · rw [if_pos hp] at h
    exact absurd h (by simp)
  · rw [if_neg hp] at h
    exact ⟨by simpa using hp, h⟩

lemma removeAllAux_no_occ : ∀ (n : Nat) (hay needle : List Char), hay.length ≤ n →
    hasSub hay needle = false → removeAllAux n hay needle = hay := by
  intro n
  induction n with
  | zero => intro hay needle _ _; rfl
  | succ n ih =>
    intro hay needle hl h
    cases hay with
    | nil => rfl
    | cons c t =>
      obtain ⟨hp, ht⟩ := hasSub_cons_false h
      rw [removeAllAux, if_neg (by simp [hp])]
      rw [ih t needle (by simpa using Nat.le_of_succ_le_succ hl) ht]

lemma removeAll_no_occ (s f : String) (h : hasSubstr s f = false) : removeAll s f = s := by
  cases s with
  | mk data =>
    show (⟨removeAllAux data.length data f.data⟩ : String) = ⟨data⟩
    rw [removeAllAux_no_occ data.length data f.data le_rfl h]

lemma mem_insLenDesc {x f : String} {l : List String} :
    x ∈ insLenDesc f l ↔ x = f ∨ x ∈ l := by
  induction l with
  | nil => simp [insLenDesc]
  | cons g gs ih =>
    rw [insLenDesc]
    by_cases hlt : g.length < f.length
    · rw [if_pos hlt]
      simp [List.mem_cons]
    · rw [if_neg hlt]
      simp only [List.mem_cons, ih]
      tauto

lemma mem_sortLenDesc_aux {x : String} : ∀ (l acc : List String),
    x ∈ l.foldl (fun a f => insLenDesc f a) acc ↔ x ∈ acc ∨ x ∈ l := by
  intro l
  induction l with
  | nil => simp
  | cons f fs ih =>
    intro acc
    simp only [List.foldl_cons, ih, mem_insLenDesc, List.mem_cons]
    tauto

lemma mem_sortLenDesc {x : String} {l : List String} : x ∈ sortLenDesc l ↔ x ∈ l := by
  rw [sortLenDesc, mem_sortLenDesc_aux]
  simp

lemma foldl_removeAll_no_occ (s : String) (frags : List String)
    (h : ∀ f ∈ frags, hasSubstr s f = false) :
    frags.foldl (fun a f => removeAll a f) s = s := by
  induction frags with
  | nil => rfl
  | cons f fs ih =>
    simp only [List.foldl_cons]
    rw [removeAll_no_occ s f (h f (by simp))]
    exact ih (fun g hg => h g (by simp [hg]))

lemma count_takeWhile_of_false (l : List Char) (a : Char) (p : Char → Bool)
    (hp : p a = false) : (l.takeWhile p).count a = 0 := by
  rw [List.count_eq_zero]
  intro h
  have := List.mem_takeWhile_imp h
  rw [hp] at this
  exact absurd this (by simp)

lemma flushRun_idem (r : List Char) : flushRun (flushRun r) = flushRun r := by
  by_cases h : 3 ≤ r.count '\n'
  · have h2 : (flushRun r).count '\n' = 2 := by
      rw [flushRun, if_pos h, List.count_append,
        count_takeWhile_of_false _ _ _ (by simp)]
      simp only [List.count_cons_self, List.count_reverse]
      rw [count_takeWhile_of_false _ _ _ (by simp)]
    conv_lhs => rw [flushRun]
    rw [if_neg (by omega : ¬ 3 ≤ (flushRun r).count '\n')]
  · have hr : flushRun r = r := by rw [flushRun, if_neg h]
    rw [hr, hr]

lemma collapseAux_ws_run : ∀ (w acc rest : List Char), (∀ c ∈ w, rustWs c = true) →
    collapseAux acc (w ++ rest) = collapseAux (w.reverse ++ acc) rest := by
  intro w
  induction w with
  | nil => intro acc rest _; rfl
  | cons c w ih =>
    intro acc rest h
    have hc : rustWs c = true := h c (by simp)
    show collapseAux acc (c :: (w ++ rest)) = _
    rw [collapseAux, if_pos hc, ih (c :: acc) rest (fun x hx => h x (by simp [hx]))]
    simp

lemma collapseAux_all_ws (l : List Char) (h : ∀ c ∈ l, rustWs c = true) :
    collapseAux [] l = flushRun l := by
  have := collapseAux_ws_run l [] [] h
  simp only [List.append_nil] at this
  rw [this, collapseAux]
  simp

lemma flushRun_ws (r : List Char) (h : ∀ c ∈ r, rustWs c = true) :
    ∀ c ∈ flushRun r, rustWs c = true := by
  intro c hc
  rw [flushRun] at hc
  by_cases h3 : 3 ≤ r.count '\n'
  · rw [if_pos h3] at hc
    rcases List.mem_append.mp hc with hc | hc
    · exact h c ((List.takeWhile_prefix _).subset hc)
    · rcases hc with _ | ⟨_, hc⟩
      · decide
      rcases hc with _ | ⟨_, hc⟩
      · decide
      · exact h c (List.mem_reverse.mp ((List.takeWhile_prefix _).subset
          (List.mem_reverse.mp hc)))
  · rw [if_neg h3] at hc
    exact h c hc

lemma takeWhile_all_ws (l : List Char) : ∀ c ∈ l.takeWhile rustWs, rustWs c = true := by
  intro c hc
  exact List.mem_takeWhile_imp hc

lemma dropWhile_head_false (p : Char → Bool) :
    ∀ (l : List Char) (c : Char) (rest : List Char), l.dropWhile p = c :: rest → p c = false := by
  intro l
  induction l with
  | nil => intro c rest h; simp at h
  | cons a as ih =>
    intro c rest h
    rw [List.dropWhile_cons] at h
    by_cases hp : p a
    · rw [if_pos hp] at h
      exact ih c rest h
    · rw [if_neg hp] at h
      have : a = c := (List.cons.injEq a as c rest ▸ h).1
      rw [← this]
      simpa using hp

lemma length_dropWhile_le (p : Char → Bool) :
    ∀ l : List Char, (l.dropWhile p).length ≤ l.length := by
  intro l
  induction l with
  | nil => simp
  | cons a as ih =>
    rw [List.dropWhile_cons]
    by_cases hp : p a
    · rw [if_pos hp]
      exact Nat.le_succ_of_le ih
    · rw [if_neg hp]

lemma collapseAux_split (l : List Char) (c : Char) (rest : List Char)
    (hd : l.dropWhile rustWs = c :: rest) :
    collapseAux [] l = flushRun (l.takeWhile rustWs) ++ c :: collapseAux [] rest := by
  have hc : rustWs c = false := dropWhile_head_false rustWs l c rest hd
  conv_lhs => rw [← List.takeWhile_append_dropWhile (p := rustWs) (l := l), hd]
  rw [collapseAux_ws_run _ [] _ (takeWhile_all_ws l), collapseAux, if_neg (by simp [hc])]
  simp

lemma collapseAux_idem_fuel : ∀ (n : Nat) (l : List Char), l.length ≤ n →
    collapseAux [] (collapseAux [] l) = collapseAux [] l := by
  intro n
  induction n with
  | zero =>
    intro l hl
    have : l = [] := List.length_eq_zero.mp (Nat.le_zero.mp hl)
    subst this
    rfl
  | succ n ih =>
    intro l hl
    cases hd : l.dropWhile rustWs with
    | nil =>
      have hws : ∀ c ∈ l, rustWs c = true := by
        intro c hc
        exact List.dropWhile_eq_nil_iff.mp hd c hc
      rw [collapseAux_all_ws l hws,
        collapseAux_all_ws (flushRun l) (flushRun_ws l hws), flushRun_idem]
    | cons c rest =>
      have hlen : rest.length ≤ n := by
        have h1 : (l.dropWhile rustWs).length ≤ l.length := length_dropWhile_le _ _
        rw [hd] at h1
        simp only [List.length_cons] at h1
        omega
      have hc : rustWs c = false := dropWhile_head_false rustWs l c rest hd
      rw [collapseAux_split l c rest hd]
      rw [collapseAux_ws_run _ [] _ (flushRun_ws _ (takeWhile_all_ws l)),
        collapseAux, if_neg (by simp [hc])]
      rw [ih rest hlen]
      simp [flushRun_idem]

lemma collapseNl_idem (s : String) : collapseNl (collapseNl s) = collapseNl s := by
  cases s with
  | mk data =>
    show (⟨collapseAux [] (collapseAux [] data)⟩ : String) = ⟨collapseAux [] data⟩
    rw [collapseAux_idem_fuel data.length data le_rfl]

/-- Claim C1 (amended): clean_html_with_selectors collects the serialized
HTML of every element matching a base-taxonomy or extra rule into a
deduplicated candidate set, sorts by length descending, erases every
occurrence of each fragment from the document string, and collapses
every maximal whitespace run holding three or more newlines down to two
newlines, that is, it collapses runs of two or more blank lines to a
single blank line (the unamended claim said runs of three or more; see
the counterexample). -/
theorem clean_follows_spec_algorithm (d : Doc) (html : String) (extra : List String) :
    clean_html_with_selectors d html extra = cleanSpecAmended d html extra := by
  rw [clean_html_with_selectors, cleanSpecAmended, specEraseAll, collectedFragments_eq_spec]

/-- Claim C2 (amended): Clean is idempotent whenever no fragment
collected from the re-parse of the cleaned output occurs in that output
as a substring; in particular erasure must not splice surrounding text
into a new excluded element.  Under that hypothesis the second pass
erases nothing and the blank-line rewrite is idempotent. -/
theorem clean_idempotent_when_no_new_fragments (d d2 : Doc) (html : String)
    (extra : List String)
    (h : ∀ f ∈ collectedFragments d2 extra,
        hasSubstr (clean_html_with_selectors d html extra) f = false) :
    clean_html_with_selectors d2 (clean_html_with_selectors d html extra) extra =
      clean_html_with_selectors d html extra := by
  have h2 : ∀ f ∈ sortLenDesc (collectedFragments d2 extra),
      hasSubstr (clean_html_with_selectors d html extra) f = false :=
    fun f hf => h f (mem_sortLenDesc.mp hf)
  have hfix : collapseNl (clean_html_with_selectors d html extra) =
      clean_html_with_selectors d html extra := by
    rw [clean_html_with_selectors]
    exact collapseNl_idem _
  show collapseNl ((sortLenDesc (collectedFragments d2 extra)).foldl
      (fun s f => removeAll s f) (clean_html_with_selectors d html extra)) = _
  rw [foldl_removeAll_no_occ _ _ h2, hfix]

/-- Witness for claim C2: the amended idempotence theorem applied to the
trivial document and the input a\n\n\nb. -/
theorem clean_idempotent_witness :
    (∀ f ∈ collectedFragments trivDoc [],
        hasSubstr (clean_html_with_selectors trivDoc "a\n\n\nb" []) f = false) ∧
    clean_html_with_selectors trivDoc (clean_html_with_selectors trivDoc "a\n\n\nb" []) [] =
      clean_html_with_selectors trivDoc "a\n\n\nb" [] :=
  ⟨by decide, clean_idempotent_when_no_new_fragments trivDoc trivDoc "a\n\n\nb" [] (by decide)⟩

lemma collectFrom_cons_none (d : Doc) (bad : String) (post : List String)
    (acc : List String) (h : d.sel bad = none) :
    collectFrom d (bad :: post) acc = collectFrom d post acc := by
  simp only [collectFrom, List.foldl_cons, h]

/-- Claim C10: a selector string rejected by Selector::parse contributes
no removals and causes no failure: cleaning with the invalid selector
inserted anywhere in the extra-exclusion list equals cleaning without
it, and the model of clean_html_with_selectors is a total function. -/
theorem clean_ignores_invalid_selectors (d : Doc) (html : String)
    (pre post : List String) (bad : String) (h : d.sel bad = none) :
    clean_html_with_selectors d html (pre ++ bad :: post) =
      clean_html_with_selectors d html (pre ++ post) := by
  have hc : collectedFragments d (pre ++ bad :: post) = collectedFragments d (pre ++ post) := by
    unfold collectedFragments
    rw [collectFrom_append, collectFrom_append, collectFrom_cons_none _ _ _ _ h]
  rw [clean_html_with_selectors, clean_html_with_selectors, hc]

/-- Witness for claim C10: the invariance theorem applied to a document
that rejects the unterminated selector string. -/
theorem clean_ignores_invalid_selectors_witness :
    docWithBadSel.sel "[unclosed" = none ∧
    clean_html_with_selectors docWithBadSel "x" (["nav"] ++ "[unclosed" :: []) =
      clean_html_with_selectors docWithBadSel "x" (["nav"] ++ []) :=
  ⟨by decide, clean_ignores_invalid_selectors docWithBadSel "x" ["nav"] [] "[unclosed" (by decide)⟩

/-- Claim C3 (amended): extract_content_with_fallback returns the first
match of the primary selector unconditionally, with no 200-character
floor; the heuristic phase runs exactly when the primary selector fails
to parse or matches nothing; and a None result implies the heuristic
phase also found nothing. -/
theorem extract_with_fallback_amended (d : Doc) (primary : String) :
    (∀ (e : Elem) (rest : List Elem), d.sel primary = some (e :: rest) →
        extract_content_with_fallback d primary = some e.ehtml) ∧
    (d.sel primary = none → extract_content_with_fallback d primary = extract_main_content d) ∧
    (d.sel primary = some [] → extract_content_with_fallback d primary = extract_main_content d) ∧
    (extract_content_with_fallback d primary = none → extract_main_content d = none) := by
  refine ⟨?_, ?_, ?_, ?_⟩
  · intro e rest he
    rw [extract_content_with_fallback, he]
  · intro he
    rw [extract_content_with_fallback, he]
  · intro he
    rw [extract_content_with_fallback, he]
  · intro he
    rw [extract_content_with_fallback] at he
    cases hsel : d.sel primary with
    | none =>
      rw [hsel] at he
      exact he
    | some es =>
      cases es with
      | nil =>
        rw [hsel] at he
        exact he
      | cons e rest =>
        rw [hsel] at he
        simp at he

/-- Witness for claim C3: the amended theorem applied to the document
whose #custom-content match has only two characters of text. -/
theorem extract_with_fallback_amended_witness :
    shortDoc.sel "#custom-content" = some [shortElem] ∧
    extract_content_with_fallback shortDoc "#custom-content" = some shortElem.ehtml :=
  ⟨by decide,
    (extract_with_fallback_amended shortDoc "#custom-content").1 shortElem [] (by decide)⟩

/-- Claim C7: WebArticle::new replaces a title or description matching
the CDATA regex by the captured inner text and keeps a non-matching
field unchanged (the description then goes through the HTML-to-Markdown
conversion md); in particular a title of <![CDATA[Hello]]> yields the
title Hello. -/
theorem webarticle_new_cdata_unwrap :
    ∀ (md : String → String) (sn su au de ti : String) (ts : Int),
      (∀ inner : List Char, cdataScan ti.data = some inner →
          (WebArticle_new md sn su ti au de ts).title = ⟨inner⟩) ∧
      (cdataScan ti.data = none → (WebArticle_new md sn su ti au de ts).title = ti) ∧
      (WebArticle_new md sn su ti au de ts).description = md (cdataUnwrap de) ∧
      (WebArticle_new md sn su "<![CDATA[Hello]]>" au de ts).title = "Hello" := by
  intro md sn su au de ti ts
  refine ⟨?_, ?_, rfl, ?_⟩
  · intro inner h
    show cdataUnwrap ti = _
    rw [cdataUnwrap, h]
  · intro h
    show cdataUnwrap ti = ti
    rw [cdataUnwrap, h]
  · show cdataUnwrap "<![CDATA[Hello]]>" = "Hello"
    decide

/-- Witness for claim C7: the unwrap implications applied to the
concrete title <![CDATA[Hi]]>. -/
theorem webarticle_new_cdata_witness :
    cdataScan ("<![CDATA[Hi]]>" : String).data = some "Hi".data ∧
    (WebArticle_new (fun s => s) "n" "u" "<![CDATA[Hi]]>" "a" "d" 0).title = "Hi" :=
  ⟨by decide,
    (webarticle_new_cdata_unwrap (fun s => s) "n" "u" "a" "d" "<![CDATA[Hi]]>" 0).1
      "Hi".data (by decide)⟩

/-- Claim C8, evaluation at the failing input: a Zenn feed holding an
item without a publish date makes zennGetArticles panic (modelled as
none) even though another item is valid, instead of surfacing a per-item
error; and techCrunchGetArticles aborts the whole feed with the first
failing item rather than returning the remaining valid items. -/
theorem zenn_missing_date_crash :
    zennGetArticles fixedParseDate (fun s => s) "Zenn" "https://zenn.dev"
        [goodItem, noDateItem] = none ∧
    techCrunchGetArticles fixedParseDate (fun s => s) "TechCrunch" "https://techcrunch.com"
        [noDateItem, goodItem] = Except.error "Missing publish_date" := by
  exact ⟨rfl, rfl⟩

/-- Claim C9: every article built by WebArticle::new has empty text and
html content fields, and under the spec-modelled orchestrator update a
failed extraction leaves the article unchanged while a successful one
writes exactly the two content fields. -/
theorem webarticle_content_fields_empty :
    ∀ (md : String → String) (sn su ti au de : String) (ts : Int),
      (WebArticle_new md sn su ti au de ts).textS = "" ∧
      (WebArticle_new md sn su ti au de ts).htmlS = "" ∧
      (∀ a : WebArticleM, applyExtractionResult a none = a) ∧
      (∀ (a : WebArticleM) (h t : String),
        applyExtractionResult a (some (h, t)) = { a with htmlS := h, textS := t }) := by
  intro md sn su ti au de ts
  exact ⟨rfl, rfl, fun a => rfl, fun a h t => rfl⟩

/-- Claim C4: the heuristic content score computed by
calculate_content_score equals the spec formula
textDensity*100 - linkDensity*50 + min(paragraphCount,10)*5 +
lengthBonus + classIdBonus, with the densities, bonuses and
case-insensitive class/id adjustments as the spec defines them. -/
theorem calculate_content_score_eq_spec (e : Elem) :
    calculate_content_score e = specScore e := by
  have hd : calculate_text_density e.ehtml e.etext = specTextDensity e := by
    unfold calculate_text_density specTextDensity
    split
    · rename_i h
      rw [h]
      simp
    · rfl
  have hl : calculate_link_density e = specLinkDensity e := rfl
  simp only [calculate_content_score, specScore, specLengthBonus, specClassIdBonus, hd, hl]
  rcases e with ⟨eh, et, lt, p, c, i⟩
  rcases c with _ | c <;> rcases i with _ | i <;> simp only [] <;> split_ifs <;> ring

lemma heuristic_foldl_filter (d : Doc) : ∀ (cands : List Elem) (acc : ℚ × Option String),
    cands.foldl (fun acc e =>
      if e.etext.length < 100 then acc
      else if isNonContent d e.ehtml then acc
      else if acc.1 < calculate_content_score e then (calculate_content_score e, some e.ehtml)
      else acc) acc =
    (cands.filter (fun e => decide (100 ≤ e.etext.length) && ! isNonContent d e.ehtml)).foldl
      (fun acc e =>
        if acc.1 < calculate_content_score e then (calculate_content_score e, some e.ehtml)
        else acc) acc := by
  intro cands
  induction cands with
  | nil => intro acc; rfl
  | cons e es ih =>
    intro acc
    rw [List.foldl_cons, List.filter_cons]
    by_cases h1 : e.etext.length < 100
    · have hcond : (decide (100 ≤ e.etext.length) && ! isNonContent d e.ehtml) = false := by
        simp [Nat.not_le.mpr h1]
      rw [if_pos h1, hcond]
      simp only [Bool.false_eq_true, if_false]
      exact ih acc
    · rw [if_neg h1]
      by_cases h2 : isNonContent d e.ehtml
      · have hcond : (decide (100 ≤ e.etext.length) && ! isNonContent d e.ehtml) = false := by
          simp [h2]
        rw [if_pos h2, hcond]
        simp only [Bool.false_eq_true, if_false]
        exact ih acc
      · have hcond : (decide (100 ≤ e.etext.length) && ! isNonContent d e.ehtml) = true := by
          simp [Nat.not_lt.mp h1, h2]
        rw [if_neg h2, hcond]
        simp only [if_true]
        rw [List.foldl_cons]
        exact ih _

lemma bestFrom_ge_init : ∀ (fs : List Elem) (b : ℚ),
    b ≤ fs.foldl (fun m e => max m (calculate_content_score e)) b := by
  intro fs
  induction fs with
  | nil => intro b; simp
  | cons e es ih =>
    intro b
    rw [List.foldl_cons]
    exact le_trans (le_max_left _ _) (ih _)


lemma heuristic_foldl_char : ∀ (fs : List Elem) (b : ℚ) (h : Option String),
    fs.foldl (fun acc e =>
        if acc.1 < calculate_content_score e then (calculate_content_score e, some e.ehtml)
        else acc) (b, h) =
      (fs.foldl (fun m e => max m (calculate_content_score e)) b,
       if b < fs.foldl (fun m e => max m (calculate_content_score e)) b then
         (fs.find? (fun e => decide (calculate_content_score e =
           fs.foldl (fun m e => max m (calculate_content_score e)) b))).map (fun e => e.ehtml)
       else h) := by
  intro fs
  induction fs with
  | nil =>
    intro b h
    simp
  | cons e es ih =>
    intro b h
    by_cases hlt : b < calculate_content_score e
    · have hmax : max b (calculate_content_score e) = calculate_content_score e :=
        max_eq_right hlt.le
      rw [List.foldl_cons, if_pos hlt, ih]
      simp only [List.foldl_cons, hmax]
      have hle : calculate_content_score e ≤
          es.foldl (fun m e => max m (calculate_content_score e)) (calculate_content_score e) :=
        bestFrom_ge_init es _
      rw [if_pos (lt_of_lt_of_le hlt hle)]
      by_cases hs : calculate_content_score e =
          es.foldl (fun m e => max m (calculate_content_score e)) (calculate_content_score e)
      · have h1 : ¬ (calculate_content_score e <
            es.foldl (fun m e => max m (calculate_content_score e)) (calculate_content_score e)) := by
          rw [← hs]
          exact lt_irrefl _
        rw [if_neg h1]
        have h2 : (fun x => decide (calculate_content_score x =
            es.foldl (fun m e => max m (calculate_content_score e)) (calculate_content_score e))) e
            = true := by
          rw [decide_eq_true_eq]
          exact hs
        have h3 : List.find? (fun x => decide (calculate_content_score x =
            es.foldl (fun m e => max m (calculate_content_score e)) (calculate_content_score e)))
            (e :: es) = some e := List.find?_cons_of_pos _ h2
        rw [h3]
        rfl
      · have h1 : calculate_content_score e <
            es.foldl (fun m e => max m (calculate_content_score e)) (calculate_content_score e) :=
          lt_of_le_of_ne hle hs
        rw [if_pos h1]
        have h2 : (fun x => decide (calculate_content_score x =
            es.foldl (fun m e => max m (calculate_content_score e)) (calculate_content_score e))) e
            = false := by
          simp only [decide_eq_false_iff_not]
          exact hs
        have h3 : List.find? (fun x => decide (calculate_content_score x =
            es.foldl (fun m e => max m (calculate_content_score e)) (calculate_content_score e)))
            (e :: es) = List.find? (fun x => decide (calculate_content_score x =
            es.foldl (fun m e => max m (calculate_content_score e)) (calculate_content_score e)))
            es := List.find?_cons_of_neg _ (by simp only [h2]; exact Bool.false_ne_true)
        rw [h3]
    · have hmax : max b (calculate_content_score e) = b := max_eq_left (not_lt.mp hlt)
      rw [List.foldl_cons, if_neg hlt, ih]
      simp only [List.foldl_cons, hmax]
      by_cases hbM : b < es.foldl (fun m e => max m (calculate_content_score e)) b
      · have hse : (fun x => decide (calculate_content_score x =
            es.foldl (fun m e => max m (calculate_content_score e)) b)) e = false := by
          simp only [decide_eq_false_iff_not]
          intro hh
          have hMb : es.foldl (fun m e => max m (calculate_content_score e)) b ≤ b := by
            rw [← hh]
            exact not_lt.mp hlt
          exact absurd hbM (not_lt.mpr hMb)
        have h3 : List.find? (fun x => decide (calculate_content_score x =
            es.foldl (fun m e => max m (calculate_content_score e)) b))
            (e :: es) = List.find? (fun x => decide (calculate_content_score x =
            es.foldl (fun m e => max m (calculate_content_score e)) b))
            es := List.find?_cons_of_neg _ (by simp only [hse]; exact Bool.false_ne_true)
        rw [if_pos hbM, if_pos hbM, h3]
      · rw [if_neg hbM, if_neg hbM]

/-- Claim C5 (amended): when no content selector probe succeeds, the
heuristic phase of extract_main_content considers the div, section,
article and main elements, discards those with fewer than 100 characters
of visible text and those matching a non-content rule by serialized-HTML
equality (the discard the unamended claim omitted), and returns the
first candidate attaining the highest score provided that score is
strictly positive, None otherwise. -/
theorem extract_main_content_heuristic_amended (d : Doc)
    (h : tryContentSelectors d CONTENT_SELECTORS = none) :
    extract_main_content d =
      (if 0 < bestScore (heuristicEligible d) then
        ((heuristicEligible d).find? (fun e => decide (calculate_content_score e =
          bestScore (heuristicEligible d)))).map (fun e => e.ehtml)
      else none) := by
  rw [extract_main_content, h]
  rw [heuristicPhase, heuristic_foldl_filter d (heuristicCandidates d) ((0 : ℚ), none)]
  rw [show List.filter (fun e => decide (100 ≤ e.etext.length) && ! isNonContent d e.ehtml)
    (heuristicCandidates d) = heuristicEligible d from rfl]
  rw [heuristic_foldl_char (heuristicEligible d) 0 none]
  rfl

/-- Witness for claim C5: the amended characterization applied to the
sidebar document. -/
theorem extract_main_content_heuristic_amended_witness :
    tryContentSelectors sidebarDoc CONTENT_SELECTORS = none ∧
    extract_main_content sidebarDoc =
      (if 0 < bestScore (heuristicEligible sidebarDoc) then
        ((heuristicEligible sidebarDoc).find? (fun e => decide (calculate_content_score e =
          bestScore (heuristicEligible sidebarDoc)))).map (fun e => e.ehtml)
      else none) :=
  ⟨by decide, extract_main_content_heuristic_amended sidebarDoc (by decide)⟩

/-- Counterexample to claim C5 as stated: in sidebarDoc the strictly
highest-scoring candidate with at least 100 characters of text is the
sidebar div, but the code discards it through the non-content filter the
claim does not mention and returns the lower-scoring plain div. -/
theorem heuristic_winner_counterexample :
    extract_main_content sidebarDoc = some plainElem.ehtml ∧
    claimHeuristicLiteral sidebarDoc = some sidebarElem.ehtml ∧
    calculate_content_score plainElem < calculate_content_score sidebarElem := by
  refine ⟨?_, claimLiteral_sidebarDoc, ?_⟩
  · rw [extract_main_content,
      show tryContentSelectors sidebarDoc CONTENT_SELECTORS = none from by decide]
    exact heuristicPhase_sidebarDoc
  · rw [score_plainElem, score_sidebarElem]
    norm_num

/-- Counterexample to claim C1 as stated: on the document a\n\n\nb, in
which no exclusion rule matches, the code collapses the two blank lines
into one, while the claim wording (collapse only runs of three or more
blank lines) leaves the string unchanged. -/
theorem clean_blank_line_clause_counterexample :
    clean_html_with_selectors trivDoc "a\n\n\nb" [] ≠
      cleanSpecLiteral trivDoc "a\n\n\nb" [] := by
  decide

/-- Counterexample to claim C2 as stated: cleaning s2input erases the
two textual occurrences of the aside fragment and thereby splices a new
live nav element into the output, so a second Clean removes it and the
result differs. -/
theorem clean_not_idempotent_counterexample :
    clean_html_with_selectors s2docAfter (clean_html_with_selectors s2doc s2input []) [] ≠
      clean_html_with_selectors s2doc s2input [] := by
  decide

/-- Counterexample to claim C3 as stated: the primary-selector match of
shortDoc has 2 characters of visible text, far below the 200-character
floor, yet the code returns it; under the claim wording the match would
be rejected and the heuristic phase would return None. -/
theorem extract_fallback_floor_counterexample :
    extract_content_with_fallback shortDoc "#custom-content" = some shortElem.ehtml ∧
    specExtractWithFallbackLiteral shortDoc "#custom-content" = none ∧
    shortElem.etext.length ≤ 200 := by
  decide

/-- Counterexample to claim C6 as stated: the input spells its nav
element in uppercase, the parser lowercases tag names, so the collected
fragment <nav>menu</nav> never occurs in the source text and the textual
erasure removes nothing: the cleaned output still contains the nav
element. -/
theorem clean_uppercase_nav_counterexample :
    clean_html_with_selectors upperNavDoc upperNavInput [] = upperNavInput ∧
    upperNavDoc.sel "nav" ≠ some [] ∧
    hasSubstr (clean_html_with_selectors upperNavDoc upperNavInput []) "<NAV>" = true := by
  decide

lemma hasSub_cons (x : Char) (t needle : List Char) :
    hasSub (x :: t) needle = (listPref needle (x :: t) || hasSub t needle) := by
  rw [hasSub]
  by_cases h : listPref needle (x :: t) <;> simp [h]

lemma ws_ne_nonws {a h : Char} (ha : rustWs a = false) (hh : rustWs h = true) : a ≠ h := by
  intro e
  rw [e, hh] at ha
  exact absurd ha (by simp)

lemma listPref_head_ne {a h : Char} {g t : List Char} (hne : a ≠ h) :
    listPref (a :: g) (h :: t) = false := by
  simp [listPref, hne]

lemma flushRun_ne_nil {r : List Char} (h : r ≠ []) : flushRun r ≠ [] := by
  rw [flushRun]
  by_cases h3 : 3 ≤ r.count '\n'
  · rw [if_pos h3]
    simp
  · rw [if_neg h3]
    exact h

lemma flushRun_nil_eq : flushRun [] = [] := rfl

lemma collapseAux_nil_nil : collapseAux [] [] = [] := rfl

lemma listPref_collapseAux : ∀ (n : Nat) (x g : List Char), x.length ≤ n →
    (∀ c ∈ g, rustWs c = false) → listPref g (collapseAux [] x) = listPref g x := by
  intro n
  induction n with
  | zero =>
    intro x g hl _
    have hx : x = [] := List.length_eq_zero.mp (Nat.le_zero.mp hl)
    subst hx
    rw [collapseAux_nil_nil]
  | succ n ih =>
    intro x g hl hg
    cases g with
    | nil => simp [listPref]
    | cons a g' =>
      have ha : rustWs a = false := hg a (by simp)
      cases hd : x.dropWhile rustWs with
      | nil =>
        have hws : ∀ c ∈ x, rustWs c = true := List.dropWhile_eq_nil_iff.mp hd
        cases x with
        | nil => rw [collapseAux_nil_nil]
        | cons y x' =>
          have hy : rustWs y = true := hws y (by simp)
          rw [collapseAux_all_ws _ hws]
          cases hf : flushRun (y :: x') with
          | nil => exact absurd hf (flushRun_ne_nil (by simp))
          | cons fh ft =>
            have hfh : rustWs fh = true := flushRun_ws _ hws fh (by rw [hf]; simp)
            rw [listPref_head_ne (ws_ne_nonws ha hfh),
              listPref_head_ne (ws_ne_nonws ha hy)]
      | cons c rest =>
        rw [collapseAux_split x c rest hd]
        cases hw : x.takeWhile rustWs with
        | nil =>
          have hx : x = c :: rest := by
            conv_lhs => rw [← List.takeWhile_append_dropWhile (p := rustWs) (l := x)]
            rw [hw, hd]
            rfl
          have hlen : rest.length ≤ n := by
            rw [hx] at hl
            simpa using hl
          rw [flushRun_nil_eq]
          simp only [List.nil_append]
          rw [hx]
          simp only [listPref]
          rw [ih rest g' hlen (fun c hc => hg c (by simp [hc]))]
        | cons h w' =>
          have hh : rustWs h = true :=
            List.mem_takeWhile_imp (by rw [hw]; simp : h ∈ x.takeWhile rustWs)
          have hp : (h :: w') <+: x := by
            rw [← hw]
            exact List.takeWhile_prefix _
          obtain ⟨t, ht⟩ := hp
          cases hf : flushRun (h :: w') with
          | nil => exact absurd hf (flushRun_ne_nil (by simp))
          | cons fh ft =>
            have hfh : rustWs fh = true := by
              apply flushRun_ws (h :: w')
              · intro z hz
                exact List.mem_takeWhile_imp (by rw [hw]; exact hz : z ∈ x.takeWhile rustWs)
              · rw [hf]
                simp
            rw [List.cons_append, listPref_head_ne (ws_ne_nonws ha hfh), ← ht,
              List.cons_append, listPref_head_ne (ws_ne_nonws ha hh)]

lemma hasSub_skip_ws (fh : Char) (ft : List Char) (hfh : rustWs fh = false) :
    ∀ (a b : List Char), (∀ c ∈ a, rustWs c = true) →
      hasSub (a ++ b) (fh :: ft) = hasSub b (fh :: ft) := by
  intro a
  induction a with
  | nil => intro b _; rfl
  | cons x a' ih =>
    intro b h
    have hx : rustWs x = true := h x (by simp)
    rw [List.cons_append, hasSub_cons,
      listPref_head_ne (ws_ne_nonws hfh hx), ih b (fun c hc => h c (by simp [hc]))]
    simp

lemma hasSub_nil_cons (fh : Char) (ft : List Char) : hasSub [] (fh :: ft) = false := by
  rw [hasSub]
  simp [listPref]

lemma hasSub_collapseAux (fh : Char) (ft : List Char) (hfh : rustWs fh = false)
    (hft : ∀ c ∈ ft, rustWs c = false) :
    ∀ (n : Nat) (x : List Char), x.length ≤ n →
      hasSub (collapseAux [] x) (fh :: ft) = hasSub x (fh :: ft) := by
  intro n
  induction n with
  | zero =>
    intro x hl
    have hx : x = [] := List.length_eq_zero.mp (Nat.le_zero.mp hl)
    subst hx
    rw [collapseAux_nil_nil]
  | succ n ih =>
    intro x hl
    cases hd : x.dropWhile rustWs with
    | nil =>
      have hws : ∀ c ∈ x, rustWs c = true := List.dropWhile_eq_nil_iff.mp hd
      rw [collapseAux_all_ws _ hws]
      have h1 : hasSub x (fh :: ft) = false := by
        have := hasSub_skip_ws fh ft hfh x [] hws
        rw [List.append_nil] at this
        rw [this, hasSub_nil_cons]
      have h2 : hasSub (flushRun x) (fh :: ft) = false := by
        have := hasSub_skip_ws fh ft hfh (flushRun x) [] (flushRun_ws x hws)
        rw [List.append_nil] at this
        rw [this, hasSub_nil_cons]
      rw [h1, h2]
    | cons c rest =>
      have hxsplit : x = x.takeWhile rustWs ++ c :: rest := by
        conv_lhs => rw [← List.takeWhile_append_dropWhile (p := rustWs) (l := x)]
        rw [hd]
      have hlen : rest.length ≤ n := by
        have h1 : (x.dropWhile rustWs).length ≤ x.length := length_dropWhile_le _ _
        rw [hd] at h1
        simp only [List.length_cons] at h1
        omega
      rw [collapseAux_split x c rest hd,
        hasSub_skip_ws fh ft hfh _ _ (flushRun_ws _ (takeWhile_all_ws x))]
      conv_rhs => rw [hxsplit]
      rw [hasSub_skip_ws fh ft hfh _ _ (takeWhile_all_ws x)]
      rw [hasSub_cons, hasSub_cons, ih rest hlen]
      simp only [listPref]
      rw [listPref_collapseAux rest.length rest ft le_rfl hft]

lemma hasSubstr_collapseNl (s pat : String) (hne : pat.data ≠ [])
    (hws : ∀ c ∈ pat.data, rustWs c = false) :
    hasSubstr (collapseNl s) pat = hasSubstr s pat := by
  show hasSub (collapseNl s).data pat.data = hasSub s.data pat.data
  cases hp : pat.data with
  | nil => exact absurd hp hne
  | cons fh ft =>
    have h1 : (collapseNl s).data = collapseAux [] s.data := rfl
    rw [h1, hasSub_collapseAux fh ft (hws fh (by rw [hp]; simp))
      (fun c hc => hws c (by rw [hp]; simp [hc])) s.data.length s.data le_rfl]

/-- Claim C6 (amended): removal is decided purely by exact string
replacement: for every document, every extra-selector list and every
nonempty whitespace-free pattern, such as <nav, <script or <aside, a
whole serialized fragment, or a piece of sibling text, the pattern
occurs in the Clean output exactly when it survives the
fragment-erasure phase, because the blank-line rewrite neither removes
nor introduces whitespace-free substrings.  The output is therefore
nav-, script- and aside-free precisely when erasing the collected
fragments eliminated every such spelling, as on the lowercase scenario
document of the witness; an element spelled differently from its
serialization survives (see the counterexample). -/
theorem clean_erasure_decides_tag_removal (d : Doc) (html : String) (extra : List String)
    (pat : String) (hne : pat.data ≠ []) (hws : ∀ c ∈ pat.data, rustWs c = false) :
    hasSubstr (clean_html_with_selectors d html extra) pat =
      hasSubstr (specEraseAll html (collectedFragments d extra)) pat := by
  show hasSubstr (collapseNl ((sortLenDesc (collectedFragments d extra)).foldl
    (fun s f => removeAll s f) html)) pat = _
  rw [hasSubstr_collapseNl _ _ hne hws]
  rfl

/-- Witness for claim C6: the equivalence applied to the boilerplate
scenario with the pattern <nav, together with concrete evaluations
showing the erasure phase eliminates the nav, script and aside
fragments there while the sibling text survives. -/
theorem clean_erasure_decides_tag_removal_witness :
    (("<nav" : String).data ≠ [] ∧ ∀ c ∈ ("<nav" : String).data, rustWs c = false) ∧
    hasSubstr (clean_html_with_selectors scenarioDoc scenarioInput []) "<nav" =
      hasSubstr (specEraseAll scenarioInput (collectedFragments scenarioDoc [])) "<nav" ∧
    hasSubstr (specEraseAll scenarioInput (collectedFragments scenarioDoc [])) "<nav" = false ∧
    hasSubstr (clean_html_with_selectors scenarioDoc scenarioInput []) "<nav" = false ∧
    hasSubstr (clean_html_with_selectors scenarioDoc scenarioInput []) "<script" = false ∧
    hasSubstr (clean_html_with_selectors scenarioDoc scenarioInput []) "<aside" = false ∧
    hasSubstr (clean_html_with_selectors scenarioDoc scenarioInput []) ">T<" = true ∧
    hasSubstr (clean_html_with_selectors scenarioDoc scenarioInput [])
      "Body text long enough." = true :=
  ⟨⟨by decide, by decide⟩,
   clean_erasure_decides_tag_removal scenarioDoc scenarioInput [] "<nav" (by decide) (by decide),
   by decide, by decide, by decide, by decide, by decide, by decide⟩
